import Mathlib

/-!
Verification development for the DDK block-processing core
(`core/service/block.ts`: `BlockService` and `TransactionPoolService`)
against its natural-language specification.

The TypeScript source is shallowly embedded: JS numbers are `Nat`/`Int`,
buffers are `List Nat` (byte values), JS `Map`s are association lists that
preserve insertion order, and the type-dispatched transaction handlers
(`core/service/transaction`, not part of the analysed sources) are abstract
state-transformer parameters.  Helper modules that the block service imports
but whose sources are not available (`core/util/block`, `core/util/transaction`,
`core/util/buffer`, the slot service) are modelled from the specification and
are marked as such in their doc comments.
-/

namespace DDK

/-- An address is a string in this model. -/
abbrev Address := String

/-- Modelled from the spec: the response envelope `{success, errors[]}`
(`shared/model/response`, not part of the analysed sources); `success` is
true exactly when no errors accumulated. -/
structure ResponseEntity where
  errors : List String
  deriving Repr, DecidableEq

/-- `success` of a response envelope: no errors were collected. -/
def ResponseEntity.success (r : ResponseEntity) : Bool :=
  r.errors.isEmpty

/-- Transaction type tags (`shared/model/transaction`). -/
inductive TransactionType where
  | REGISTER
  | SEND
  | SIGNATURE
  | DELEGATE
  | STAKE
  | VOTE
  deriving Repr, DecidableEq

/-- Modelled from the spec: the numeric codes behind the type tags
("primary: type numeric ascending"); any strictly increasing assignment
realises the spec's ordering. -/
def typeCode : TransactionType → Nat
  | .REGISTER => 0
  | .SEND => 10
  | .SIGNATURE => 20
  | .DELEGATE => 30
  | .STAKE => 40
  | .VOTE => 60

/-- Type-discriminated transaction payload (`asset`).  `vote` and `stake`
carry the airdrop sponsor addresses (`asset.airdropReward.sponsors` keys). -/
inductive Asset where
  | transfer (recipientAddress : Address) (amount : Int)
  | vote (reward : Bool) (unstake : Bool) (sponsors : List Address)
  | stake (sponsors : List Address)
  | plain
  deriving Repr, DecidableEq

/-- The fields of `Transaction` used by the block service and the pool. -/
structure Transaction where
  id : String
  type : TransactionType
  createdAt : Int
  fee : Int
  senderAddress : Address
  senderPublicKey : String
  asset : Asset
  deriving Repr, DecidableEq

/-- The fields of `Block` used by the block service. -/
structure Block where
  id : String
  version : Nat
  height : Nat
  previousBlockId : Option String
  createdAt : Int
  generatorPublicKey : String
  signature : String
  payloadHash : String
  transactionCount : Nat
  amount : Nat
  fee : Nat
  transactions : List Transaction
  deriving Repr, DecidableEq

/-! ### Lexicographic string comparison

JS compares transaction ids with `<` on strings; we model it as the
lexicographic order on the underlying character lists. -/

/-- Lexicographic strict order on character lists (the JS `<` on strings). -/
def charListLt : List Char → List Char → Bool
  | [], [] => false
  | [], _ :: _ => true
  | _ :: _, [] => false
  | c :: cs, d :: ds => if c < d then true else if d < c then false else charListLt cs ds

/-- The JS string comparison `a < b` used on transaction ids. -/
def strLt (a b : String) : Bool :=
  charListLt a.data b.data

theorem charListLt_irrefl (x : List Char) : charListLt x x = false := by
  induction x with
  | nil => rfl
  | cons c cs ih => simp [charListLt, lt_self_iff_false, ih]

theorem charListLt_trans : ∀ {x y z : List Char},
    charListLt x y = true → charListLt y z = true → charListLt x z = true
  | [], [], _, h1, _ => by simp [charListLt] at h1
  | [], _ :: _, [], _, h2 => by simp [charListLt] at h2
  | [], _ :: _, _ :: _, _, _ => by simp [charListLt]
  | _ :: _, [], _, h1, _ => by simp [charListLt] at h1
  | _ :: _, _ :: _, [], _, h2 => by simp [charListLt] at h2
  | c :: cs, d :: ds, e :: es, h1, h2 => by
    simp only [charListLt] at h1 h2 ⊢
    rcases lt_trichotomy c d with hcd | hcd | hcd
    · rcases lt_trichotomy d e with hde | hde | hde
      · simp [lt_trans hcd hde]
      · subst hde; simp [hcd]
      · simp [lt_asymm hde, hde] at h2
    · subst hcd
      simp only [lt_self_iff_false, if_false] at h1
      rcases lt_trichotomy c e with hce | hce | hce
      · simp [hce]
      · subst hce
        simp only [lt_self_iff_false, if_false] at h2 ⊢
        exact charListLt_trans h1 h2
      · simp [lt_asymm hce, hce] at h2
    · simp [lt_asymm hcd, hcd] at h1

theorem charListLt_asymm : ∀ {x y : List Char},
    charListLt x y = true → charListLt y x = false
  | [], [], h => by simp [charListLt] at h
  | [], _ :: _, _ => by simp [charListLt]
  | _ :: _, [], h => by simp [charListLt] at h
  | c :: cs, d :: ds, h => by
    simp only [charListLt] at h ⊢
    rcases lt_trichotomy c d with hcd | hcd | hcd
    · simp [hcd, lt_asymm hcd]
    · subst hcd
      simp only [lt_self_iff_false, if_false] at h ⊢
      exact charListLt_asymm h
    · simp [lt_asymm hcd, hcd] at h

theorem charListLt_connex : ∀ {x y : List Char},
    charListLt x y = false → charListLt y x = false → x = y
  | [], [], _, _ => rfl
  | [], _ :: _, h1, _ => by simp [charListLt] at h1
  | _ :: _, [], _, h2 => by simp [charListLt] at h2
  | c :: cs, d :: ds, h1, h2 => by
    simp only [charListLt] at h1 h2
    rcases lt_trichotomy c d with hcd | hcd | hcd
    · simp [hcd] at h1
    · subst hcd
      simp only [lt_self_iff_false, if_false] at h1 h2
      rw [charListLt_connex h1 h2]
    · simp [hcd, lt_asymm hcd] at h2

/-! ### The stable transaction sort

`transactionSortFunc` (`core/util/transaction`, not part of the analysed
sources). -/

/-- Modelled from the spec: the comparator behind the stable ordering of
transactions — "primary: type numeric ascending; tiebreakers: createdAt
ascending, id lexicographic ascending".  Returns -1/0/1 as a JS comparator. -/
def transactionSortFunc (a b : Transaction) : Int :=
  if typeCode a.type < typeCode b.type then -1
  else if typeCode b.type < typeCode a.type then 1
  else if a.createdAt < b.createdAt then -1
  else if b.createdAt < a.createdAt then 1
  else if strLt a.id b.id then -1
  else if strLt b.id a.id then 1
  else 0

/-- The boolean "a sorts no later than b" derived from the comparator,
as used to run a stable sort. -/
def trsLe (a b : Transaction) : Bool :=
  transactionSortFunc a b ≤ 0

/-- `trsLe` unfolded into its lexicographic meaning. -/
theorem trsLe_iff (a b : Transaction) : trsLe a b = true ↔
    (typeCode a.type < typeCode b.type ∨
      (typeCode a.type = typeCode b.type ∧
        (a.createdAt < b.createdAt ∨
          (a.createdAt = b.createdAt ∧
            (charListLt a.id.data b.id.data = true ∨ a.id.data = b.id.data))))) := by
  simp only [trsLe, transactionSortFunc, strLt, decide_eq_true_eq]
  rcases lt_trichotomy (typeCode a.type) (typeCode b.type) with h | h | h
  · rw [if_pos h]
    simp only [h, true_or, iff_true]
    norm_num
  · rw [if_neg (by omega), if_neg (by omega)]
    simp only [h, lt_self_iff_false, false_or, true_and]
    rcases lt_trichotomy a.createdAt b.createdAt with h2 | h2 | h2
    · rw [if_pos h2]
      simp only [h2, true_or, iff_true]
      norm_num
    · rw [if_neg (by omega), if_neg (by omega)]
      simp only [h2, lt_self_iff_false, false_or, true_and]
      rcases Bool.eq_false_or_eq_true (charListLt a.id.data b.id.data) with h3 | h3
      · norm_num [h3]
      · simp only [h3, Bool.false_eq_true, if_false, false_or]
        rcases Bool.eq_false_or_eq_true (charListLt b.id.data a.id.data) with h4 | h4
        · have h6 : a.id.data ≠ b.id.data := by
            intro he
            rw [he, charListLt_irrefl] at h4
            exact Bool.false_ne_true h4
          norm_num [h4, h6]
        · have h5 := charListLt_connex h3 h4
          norm_num [h4, h5, charListLt_irrefl]
    · rw [if_neg (by omega), if_pos h2]
      have h5 : ¬(a.createdAt < b.createdAt ∨
          (a.createdAt = b.createdAt ∧
            (charListLt a.id.data b.id.data = true ∨ a.id.data = b.id.data))) := by
        rintro (h6 | ⟨h6, _⟩) <;> omega
      simp only [h5, iff_false]
      norm_num
  · rw [if_neg (by omega), if_pos h]
    have h5 : ¬(typeCode a.type < typeCode b.type ∨
        (typeCode a.type = typeCode b.type ∧
          (a.createdAt < b.createdAt ∨
            (a.createdAt = b.createdAt ∧
              (charListLt a.id.data b.id.data = true ∨ a.id.data = b.id.data))))) := by
      rintro (h6 | ⟨h6, _⟩) <;> omega
    simp only [h5, iff_false]
    norm_num

theorem trsLe_trans (a b c : Transaction) :
    trsLe a b = true → trsLe b c = true → trsLe a c = true := by
  simp only [trsLe_iff]
  rintro (h1 | ⟨h1, h1'⟩) (h2 | ⟨h2, h2'⟩)
  · exact Or.inl (by omega)
  · exact Or.inl (by omega)
  · exact Or.inl (by omega)
  · refine Or.inr ⟨by omega, ?_⟩
    rcases h1' with h3 | ⟨h3, h3'⟩
    · rcases h2' with h4 | ⟨h4, _⟩
      · exact Or.inl (by omega)
      · exact Or.inl (by omega)
    · rcases h2' with h4 | ⟨h4, h4'⟩
      · exact Or.inl (by omega)
      · refine Or.inr ⟨by omega, ?_⟩
        rcases h3' with h5 | h5
        · rcases h4' with h6 | h6
          · exact Or.inl (charListLt_trans h5 h6)
          · exact Or.inl (by rw [← h6]; exact h5)
        · rcases h4' with h6 | h6
          · exact Or.inl (by rw [h5]; exact h6)
          · exact Or.inr (h5.trans h6)

theorem trsLe_total (a b : Transaction) :
    (trsLe a b || trsLe b a) = true := by
  rcases lt_trichotomy (typeCode a.type) (typeCode b.type) with h1 | h1 | h1
  · have hab : trsLe a b = true := (trsLe_iff a b).mpr (Or.inl h1)
    simp [hab]
  · rcases lt_trichotomy a.createdAt b.createdAt with h2 | h2 | h2
    · have hab : trsLe a b = true := (trsLe_iff a b).mpr (Or.inr ⟨h1, Or.inl h2⟩)
      simp [hab]
    · rcases Bool.eq_false_or_eq_true (charListLt a.id.data b.id.data) with h3 | h3
      · have hab : trsLe a b = true :=
          (trsLe_iff a b).mpr (Or.inr ⟨h1, Or.inr ⟨h2, Or.inl h3⟩⟩)
        simp [hab]
      · rcases Bool.eq_false_or_eq_true (charListLt b.id.data a.id.data) with h4 | h4
        · have hba : trsLe b a = true :=
            (trsLe_iff b a).mpr (Or.inr ⟨h1.symm, Or.inr ⟨h2.symm, Or.inl h4⟩⟩)
          simp [hba]
        · have h5 := charListLt_connex h3 h4
          have hab : trsLe a b = true :=
            (trsLe_iff a b).mpr (Or.inr ⟨h1, Or.inr ⟨h2, Or.inr h5⟩⟩)
          simp [hab]
    · have hba : trsLe b a = true := (trsLe_iff b a).mpr (Or.inr ⟨h1.symm, Or.inl h2⟩)
      simp [hba]
  · have hba : trsLe b a = true := (trsLe_iff b a).mpr (Or.inl h1)
    simp [hba]

/-! ## C5 — block slot-number window check

`verifyBlockSlotNumber` (`core/service/block.ts`).  The slot numbers and the
active-delegate count — obtained in the source from `SlotService` and
`DelegateService`, which are not part of the analysed sources — are taken as
explicit arguments. -/

/-- `verifyBlockSlotNumber`: pushes `'Invalid block timestamp'` when the
received block's slot number is above the window's upper bound or not above
the last block's slot number. -/
def verifyBlockSlotNumber (receivedBlockSlotNumber lastBlockSlotNumber currentSlotNumber
    activeDelegatesCount : Int) (errors : List String) : List String :=
  if receivedBlockSlotNumber > currentSlotNumber + activeDelegatesCount - 1 ∨
      receivedBlockSlotNumber ≤ lastBlockSlotNumber
  then errors ++ ["Invalid block timestamp"]
  else errors

/-- C5: the slot check reports `'Invalid block timestamp'` exactly when the
block's slot number lies outside the half-open interval
`(lastBlockSlotNumber, currentSlotNumber + activeDelegatesCount - 1]`. -/
theorem verifyBlockSlotNumber_invalid_iff
    (r l c n : Int) (errors : List String) :
    "Invalid block timestamp" ∈ verifyBlockSlotNumber r l c n errors ↔
      ("Invalid block timestamp" ∈ errors ∨ ¬(l < r ∧ r ≤ c + n - 1)) := by
  unfold verifyBlockSlotNumber
  split_ifs with hc
  · have hout : ¬(l < r ∧ r ≤ c + n - 1) := by omega
    simp [List.mem_append, hout]
  · have hin : l < r ∧ r ≤ c + n - 1 := by omega
    simp [hin]

/-! ## C3 — the receive decision table

`validateReceivedBlock` (`core/service/block.ts`).  The height/id/timestamp
predicates it uses live in `core/util/block`, which is not part of the
analysed sources; they are modelled from the spec's decision table.
`isNext` ("R is the immediate next block of L") and `isBlockCanBeProcessed`
("block is eligible for processing") involve slot state external to the two
blocks, so their results are abstract boolean arguments. -/

/-- Modelled from the spec: `R.id == L.id` ("already processed"). -/
def isEqualId (lastBlock receivedBlock : Block) : Bool :=
  receivedBlock.id == lastBlock.id

/-- Modelled from the spec: `R.height < L.height` ("less than last block"). -/
def isLessHeight (lastBlock receivedBlock : Block) : Bool :=
  receivedBlock.height < lastBlock.height

/-- Modelled from the spec: `R.height > L.height`. -/
def isGreatestHeight (lastBlock receivedBlock : Block) : Bool :=
  lastBlock.height < receivedBlock.height

/-- Modelled from the spec: `R.height == L.height`. -/
def isEqualHeight (lastBlock receivedBlock : Block) : Bool :=
  receivedBlock.height == lastBlock.height

/-- Modelled from the spec: "Newer here means strictly earlier createdAt"
(`R.createdAt < L.createdAt` in the equal-height row of the table). -/
def isNewer (lastBlock receivedBlock : Block) : Bool :=
  receivedBlock.createdAt < lastBlock.createdAt

/-- Modelled from the spec: `R.previousBlockId == L.previousBlockId`. -/
def isEqualPreviousBlock (lastBlock receivedBlock : Block) : Bool :=
  receivedBlock.previousBlockId == lastBlock.previousBlockId

/-- `verifyEqualBlock`: the source returns an empty (successful) response
unconditionally. -/
def verifyEqualBlock (_receivedBlock : Block) : ResponseEntity :=
  { errors := [] }

/-- Result of `validateReceivedBlock`: the response plus whether
`EMIT_SYNC_BLOCKS` was emitted. -/
structure ValidateReceivedResult where
  response : ResponseEntity
  emittedSyncBlocks : Bool
  deriving Repr, DecidableEq

/-- `validateReceivedBlock`.  `isNextRes` and `canBeProcessedRes` stand for
the results of `isNext(lastBlock, receivedBlock)` and
`isBlockCanBeProcessed(lastBlock, receivedBlock)`; `myConsensus` for
`SyncService.getMyConsensus()`; `synchronization` for
`System.synchronization`. -/
def validateReceivedBlock (lastBlock receivedBlock : Block)
    (isNextRes canBeProcessedRes myConsensus synchronization : Bool) :
    ValidateReceivedResult :=
  if isEqualId lastBlock receivedBlock then
    { response := { errors := ["[validateReceivedBlock] Block already processed"] },
      emittedSyncBlocks := false }
  else if isLessHeight lastBlock receivedBlock then
    { response := { errors := ["[validateReceivedBlock] received block less then last block"] },
      emittedSyncBlocks := false }
  else if isGreatestHeight lastBlock receivedBlock && (!isNextRes || !canBeProcessedRes) then
    { response := { errors := ["[validateReceivedBlock] Block not close"] },
      emittedSyncBlocks := !myConsensus && !synchronization }
  else if isEqualHeight lastBlock receivedBlock &&
      (!isNewer lastBlock receivedBlock || myConsensus ||
        !isEqualPreviousBlock lastBlock receivedBlock) then
    { response := { errors := ["[validateReceivedBlock] receive not valid equal block"] },
      emittedSyncBlocks := false }
  else if isEqualHeight lastBlock receivedBlock &&
      !(verifyEqualBlock receivedBlock).success then
    { response := { errors := ["[validateReceivedBlock] verify failed for equal block"] },
      emittedSyncBlocks := false }
  else
    { response := { errors := [] }, emittedSyncBlocks := false }

/-- C3: `validateReceivedBlock` accepts exactly per the decision table —
not already processed, not below the last height, a strictly higher block
only when it is the immediate next block and eligible for processing, and an
equal-height block only when it was created strictly earlier, the local node
is not in its own consensus, and the two blocks share their previous block
(`verifyEqualBlock` always succeeding in the source). -/
theorem validateReceivedBlock_decision_table (L R : Block)
    (isNextRes canBeProcessedRes myConsensus synchronization : Bool) :
    (validateReceivedBlock L R isNextRes canBeProcessedRes myConsensus
        synchronization).response.success = true ↔
      (R.id ≠ L.id ∧
        ¬(R.height < L.height) ∧
        (L.height < R.height → isNextRes = true ∧ canBeProcessedRes = true) ∧
        (R.height = L.height →
          R.createdAt < L.createdAt ∧ myConsensus = false ∧
            R.previousBlockId = L.previousBlockId)) := by
  unfold validateReceivedBlock
  simp only [isEqualId, isLessHeight, isGreatestHeight, isEqualHeight, isNewer,
    isEqualPreviousBlock, verifyEqualBlock, ResponseEntity.success]
  split_ifs with h1 h2 h3 h4 h5
  · simp only [List.isEmpty_cons, Bool.false_eq_true, false_iff]
    rintro ⟨ha, -, -, -⟩
    exact ha (by simpa using h1)
  · simp only [List.isEmpty_cons, Bool.false_eq_true, false_iff]
    rintro ⟨-, hb, -, -⟩
    exact hb (by simpa using h2)
  · simp only [List.isEmpty_cons, Bool.false_eq_true, false_iff]
    rintro ⟨-, -, hc, -⟩
    simp only [Bool.and_eq_true, Bool.or_eq_true, Bool.not_eq_true', decide_eq_true_eq] at h3
    obtain ⟨hlt, hor⟩ := h3
    obtain ⟨hn, hcn⟩ := hc hlt
    rcases hor with h | h <;> simp_all
  · simp only [List.isEmpty_cons, Bool.false_eq_true, false_iff]
    rintro ⟨-, -, -, hd⟩
    simp only [Bool.and_eq_true, Bool.or_eq_true, Bool.not_eq_true', decide_eq_true_eq,
      decide_eq_false_iff_not, beq_iff_eq, beq_eq_false_iff_ne] at h4
    obtain ⟨heq, hor⟩ := h4
    obtain ⟨hca, hcons, hprev⟩ := hd heq
    rcases hor with (h | h) | h
    · exact h hca
    · rw [hcons] at h
      exact Bool.false_ne_true h
    · exact h hprev
  · exact absurd h5 (by simp)
  · simp only [List.isEmpty_nil, true_iff]
    refine ⟨?_, ?_, ?_, ?_⟩
    · intro he
      exact h1 (by simp [he])
    · intro hlt
      exact h2 (by simp [hlt])
    · intro hlt
      constructor
      · cases hn : isNextRes
        · exact absurd (by simp [hlt, hn]) h3
        · rfl
      · cases hcn : canBeProcessedRes
        · exact absurd (by simp [hlt, hcn]) h3
        · rfl
    · intro heq
      refine ⟨?_, ?_, ?_⟩
      · by_contra hca
        exact h4 (by simp [heq, hca])
      · cases hcons : myConsensus
        · rfl
        · exact absurd (by simp [heq, hcons]) h4
      · by_contra hprev
        exact h4 (by simp [heq, hprev])

/-! ## C4 — canonical block byte serialization

`getBytes` and `BLOCK_BUFFER_SIZE` (`core/service/block.ts`).  The byte
writers come from `core/util/buffer`, which is not part of the analysed
sources; they are modelled from the spec's little-endian layout: a `u32`
occupies 4 bytes, an `i64` slot 8 bytes, `writeInt32LE` writes 4 bytes and
returns the advanced offset, `writeUInt64LE` writes 8 bytes. -/

/-- Modelled from the spec: `BUFFER.LENGTH.UINT32` — a 32-bit slot is
4 bytes. -/
def LENGTH_UINT32 : Nat := 4

/-- Modelled from the spec: `BUFFER.LENGTH.INT64` — a 64-bit slot is
8 bytes. -/
def LENGTH_INT64 : Nat := 8

/-- `BLOCK_BUFFER_SIZE` exactly as summed in the source: a `UINT32` slot for
the version, an `INT64` slot for the timestamp, a `UINT32` slot for the
transaction count and `INT64` slots for amount and fee. -/
def BLOCK_BUFFER_SIZE : Nat :=
  LENGTH_UINT32 -- version
  + LENGTH_INT64 -- timestamp
  + LENGTH_UINT32 -- transactionCount
  + LENGTH_INT64 -- amount
  + LENGTH_INT64 -- fee

/-- The 4 little-endian bytes of a 32-bit integer (two's complement for
negative values). -/
def int32LEBytes (v : Int) : List Nat :=
  let n := (v % (2 ^ 32)).toNat
  [n % 256, n / 256 % 256, n / 256 ^ 2 % 256, n / 256 ^ 3 % 256]

/-- The 8 little-endian bytes of a 64-bit unsigned integer. -/
def uint64LEBytes (v : Nat) : List Nat :=
  let n := v % 2 ^ 64
  [n % 256, n / 256 % 256, n / 256 ^ 2 % 256, n / 256 ^ 3 % 256,
    n / 256 ^ 4 % 256, n / 256 ^ 5 % 256, n / 256 ^ 6 % 256, n / 256 ^ 7 % 256]

/-- Overwrite `bytes.length` bytes of `buf` starting at `offset`. -/
def bufWrite (buf : List Nat) (bytes : List Nat) (offset : Nat) : List Nat :=
  buf.take offset ++ bytes ++ buf.drop (offset + bytes.length)

/-- Modelled from the spec: `BUFFER.writeInt32LE` — write 4 little-endian
bytes, return the offset advanced by 4. -/
def writeInt32LE (buf : List Nat) (value : Int) (offset : Nat) : List Nat × Nat :=
  (bufWrite buf (int32LEBytes value) offset, offset + 4)

/-- Modelled from the spec: `BUFFER.writeUInt64LE` — write 8 little-endian
bytes, return the offset advanced by 8. -/
def writeUInt64LE (buf : List Nat) (value : Nat) (offset : Nat) : List Nat × Nat :=
  (bufWrite buf (uint64LEBytes value) offset, offset + 8)

/-- The value of one hex digit, `none` for a non-hex character. -/
def hexDigit (c : Char) : Option Nat :=
  if '0' ≤ c ∧ c ≤ '9' then some (c.toNat - '0'.toNat)
  else if 'a' ≤ c ∧ c ≤ 'f' then some (c.toNat - 'a'.toNat + 10)
  else if 'A' ≤ c ∧ c ≤ 'F' then some (c.toNat - 'A'.toNat + 10)
  else none

/-- `Buffer.from(s, 'hex')`: decode hex digit pairs, stopping at the first
invalid or incomplete pair. -/
def hexDecodeChars : List Char → List Nat
  | c1 :: c2 :: rest =>
    match hexDigit c1, hexDigit c2 with
    | some hi, some lo => (16 * hi + lo) :: hexDecodeChars rest
    | _, _ => []
  | _ => []

/-- Hex-decode a string to its bytes. -/
def hexDecode (s : String) : List Nat :=
  hexDecodeChars s.data

/-- `getBytes(block, skipSignature)` exactly as in the source: allocate a
zero-filled buffer of `BLOCK_BUFFER_SIZE` bytes, write version, createdAt and
transactionCount as 32-bit values and amount and fee as 64-bit values at the
successively returned offsets, then append the hex-decoded previousBlockId
(empty when null), payloadHash, generatorPublicKey, and — unless skipped or
empty — the signature. -/
def getBytes (block : Block) (skipSignature : Bool) : List Nat :=
  let buf0 := List.replicate BLOCK_BUFFER_SIZE 0
  let r1 := writeInt32LE buf0 (Int.ofNat block.version) 0
  let r2 := writeInt32LE r1.1 block.createdAt r1.2
  let r3 := writeInt32LE r2.1 (Int.ofNat block.transactionCount) r2.2
  let r4 := writeUInt64LE r3.1 block.amount r3.2
  let r5 := writeUInt64LE r4.1 block.fee r4.2
  r5.1 ++
    hexDecode (match block.previousBlockId with | some p => p | none => "") ++
    hexDecode block.payloadHash ++
    hexDecode block.generatorPublicKey ++
    hexDecode (if !skipSignature && block.signature ≠ "" then block.signature else "")

/-- The serialization as the claim words it: a 28-byte fixed portion with no
padding bytes, followed by the same hex-decoded fields. -/
def claimedGetBytes (block : Block) (skipSignature : Bool) : List Nat :=
  int32LEBytes (Int.ofNat block.version) ++
    int32LEBytes block.createdAt ++
    int32LEBytes (Int.ofNat block.transactionCount) ++
    uint64LEBytes block.amount ++
    uint64LEBytes block.fee ++
    hexDecode (match block.previousBlockId with | some p => p | none => "") ++
    hexDecode block.payloadHash ++
    hexDecode block.generatorPublicKey ++
    hexDecode (if !skipSignature && block.signature ≠ "" then block.signature else "")

/-- A concrete block used to separate `getBytes` from the claimed
28-byte-fixed-portion layout. -/
def c4Block : Block :=
  { id := "aa"
    version := 1
    height := 2
    previousBlockId := none
    createdAt := 3
    generatorPublicKey := ""
    signature := ""
    payloadHash := ""
    transactionCount := 0
    amount := 5
    fee := 7
    transactions := [] }

/-- C4 counterexample: on a concrete block, `getBytes` is not the claimed
padding-free 28-byte fixed portion followed by the hex fields — the fixed
portion the code produces is 32 bytes long. -/
theorem getBytes_ne_claimed :
    getBytes c4Block true ≠ claimedGetBytes c4Block true ∧
      (getBytes c4Block true).length = 32 := by
  constructor
  · decide
  · decide

/-- C4 amended: `getBytes` is the little-endian fixed portion u32 version,
i32 createdAt, u32 transactionCount, u64 amount, u64 fee (28 bytes) followed
by exactly four zero padding bytes — the timestamp slot of
`BLOCK_BUFFER_SIZE` is 8 bytes wide but only 4 are written — and then the
hex-decoded previousBlockId (empty when null), payloadHash,
generatorPublicKey, and the signature, omitted when `skipSignature` is set
(or empty). -/
theorem getBytes_layout (block : Block) (skipSignature : Bool) :
    getBytes block skipSignature =
      int32LEBytes (Int.ofNat block.version) ++
        int32LEBytes block.createdAt ++
        int32LEBytes (Int.ofNat block.transactionCount) ++
        uint64LEBytes block.amount ++
        uint64LEBytes block.fee ++
        [0, 0, 0, 0] ++
        hexDecode (match block.previousBlockId with | some p => p | none => "") ++
        hexDecode block.payloadHash ++
        hexDecode block.generatorPublicKey ++
        hexDecode (if !skipSignature && block.signature ≠ "" then block.signature
          else "") := by
  simp only [getBytes, writeInt32LE, writeUInt64LE, bufWrite, int32LEBytes, uint64LEBytes,
    BLOCK_BUFFER_SIZE, LENGTH_UINT32, LENGTH_INT64]
  simp [List.replicate, List.append_assoc]

/-! ## C1, C2 — unconfirmed application with rollback, and the process pipeline

`checkTransactionsAndApplyUnconfirmed`, `process` and `applyBlock`
(`core/service/block.ts`).  The per-type transaction handlers
(`core/service/transaction`) are not part of the analysed sources; they are
abstract state transformers over an account-state type `σ` (the registry of
unconfirmed balances).  `verifyUnconfirmed` is represented by the error list
it returns — the response succeeds exactly when that list is empty. -/

/-- Abstract interface to the type-dispatched transaction handlers used by
the block service. -/
structure TrsOps (σ : Type) where
  verifyUnconfirmedErrors : Transaction → σ → List String
  applyUnconfirmed : Transaction → σ → σ
  undoUnconfirmed : Transaction → σ → σ
  apply : Transaction → σ → σ
  undo : Transaction → σ → σ
  calculateFee : Transaction → σ → Int

/-- Fold `applyUnconfirmed` over a list of transactions. -/
def applyFold {σ : Type} (ops : TrsOps σ) (txs : List Transaction) (s : σ) : σ :=
  txs.foldl (fun st trs => ops.applyUnconfirmed trs st) s

/-- Fold `undoUnconfirmed` over a list of transactions. -/
def undoFold {σ : Type} (ops : TrsOps σ) (txs : List Transaction) (s : σ) : σ :=
  txs.foldl (fun st trs => ops.undoUnconfirmed trs st) s

/-- The main `while` loop of `checkTransactionsAndApplyUnconfirmed`: walk the
block's transactions in stored order; under `verify`, stop at the first
transaction whose `verifyUnconfirmed` fails (without applying it), else
recompute the fee of VOTE transactions before applying.  Returns the state,
the collected errors, and the transactions applied (in application order). -/
def checkLoop {σ : Type} (ops : TrsOps σ) (verify : Bool) :
    List Transaction → σ → σ × List String × List Transaction
  | [], s => (s, [], [])
  | trs :: rest, s =>
    if verify then
      let errs := ops.verifyUnconfirmedErrors trs s
      if errs.isEmpty then
        let r := checkLoop ops verify rest (ops.applyUnconfirmed trs s)
        (r.1, r.2.1, trs :: r.2.2)
      else
        (s, errs, [])
    else
      let trs2 := if trs.type = TransactionType.VOTE
        then { trs with fee := ops.calculateFee trs s } else trs
      let r := checkLoop ops verify rest (ops.applyUnconfirmed trs2 s)
      (r.1, r.2.1, trs2 :: r.2.2)

/-- Result of `checkTransactionsAndApplyUnconfirmed`: the final account
state, the collected errors, the transactions applied unconfirmed (in
order), and the sequence of `undoUnconfirmed` calls of the rollback loop
(in call order). -/
structure CheckResult (σ : Type) where
  state : σ
  errors : List String
  applied : List Transaction
  undone : List Transaction
  deriving Repr

/-- `checkTransactionsAndApplyUnconfirmed(block, verify)`: run the loop;
when it collected errors, undo the applied transactions from the failure
point back to index 0 (the source's `while (i >= 0)` loop, i.e. the reverse
of the applied prefix). -/
def checkTransactionsAndApplyUnconfirmed {σ : Type} (ops : TrsOps σ) (block : Block)
    (verify : Bool) (s : σ) : CheckResult σ :=
  let r := checkLoop ops verify block.transactions s
  if r.2.1.isEmpty then
    { state := r.1, errors := r.2.1, applied := r.2.2, undone := [] }
  else
    { state := undoFold ops r.2.2.reverse r.1, errors := r.2.1,
      applied := r.2.2, undone := r.2.2.reverse }

/-- External inputs of one `process` run: the abstract handlers, the durable
`batchSave` outcome, the storage membership test for the block id, and the
outcomes of `verifyBlock` / `verifyBlockSlot` (each given by its error
list). -/
structure ProcessEnv (σ : Type) where
  ops : TrsOps σ
  batchSaveErrors : List String
  storageHas : Bool
  verifyBlockErrors : List String
  verifyBlockSlotErrors : List String

/-- Result of `applyBlock` (receive path, `keyPair` null so `addPayloadHash`
is skipped). -/
structure ApplyBlockResult (σ : Type) where
  state : σ
  errors : List String
  pushedToStorage : Bool
  confirmedApplied : List Transaction
  deriving Repr

/-- `applyBlock` on the receive path: durably save the block — on failure
return the errors extended with `'applyBlock'` and change nothing else; on
success push the block to storage and apply each transaction (confirmed) in
stored order. -/
def applyBlock {σ : Type} (env : ProcessEnv σ) (block : Block) (s : σ) :
    ApplyBlockResult σ :=
  if env.batchSaveErrors.isEmpty then
    { state := block.transactions.foldl (fun st trs => env.ops.apply trs st) s
      errors := []
      pushedToStorage := true
      confirmedApplied := block.transactions }
  else
    { state := s
      errors := env.batchSaveErrors ++ ["applyBlock"]
      pushedToStorage := false
      confirmedApplied := [] }

/-- Result of `process`: the final account state, the error envelope, the
`undoUnconfirmed` calls made on the failed-`applyBlock` path (in call
order), the transactions pushed back to the queue there, and the storage /
confirmed-apply effects. -/
structure ProcessResult (σ : Type) where
  state : σ
  errors : List String
  undoneByFailedApply : List Transaction
  queued : List Transaction
  pushedToStorage : Bool
  confirmedApplied : List Transaction
  deriving Repr

/-- `process(block, broadcast, keyPair=null, verify)`: the verification
gates, the duplicate-id gate, `checkTransactionsAndApplyUnconfirmed`, then
`applyBlock`; when `applyBlock` fails, every transaction of the block is
undone unconfirmed and requeued, in reverse stored order. -/
def process {σ : Type} (env : ProcessEnv σ) (block : Block) (verify : Bool)
    (s : σ) : ProcessResult σ :=
  if verify ∧ env.verifyBlockErrors ≠ [] then
    { state := s, errors := env.verifyBlockErrors ++ ["process"],
      undoneByFailedApply := [], queued := [], pushedToStorage := false,
      confirmedApplied := [] }
  else if verify ∧ env.verifyBlockSlotErrors ≠ [] then
    { state := s, errors := env.verifyBlockSlotErrors ++ ["process"],
      undoneByFailedApply := [], queued := [], pushedToStorage := false,
      confirmedApplied := [] }
  else if env.storageHas then
    { state := s, errors := ["Block already exists"],
      undoneByFailedApply := [], queued := [], pushedToStorage := false,
      confirmedApplied := [] }
  else
    let chk := checkTransactionsAndApplyUnconfirmed env.ops block verify s
    if chk.errors ≠ [] then
      { state := chk.state, errors := chk.errors ++ ["process"],
        undoneByFailedApply := [], queued := [], pushedToStorage := false,
        confirmedApplied := [] }
    else
      let ab := applyBlock env block chk.state
      if ab.errors ≠ [] then
        { state := undoFold env.ops block.transactions.reverse ab.state
          errors := ab.errors ++ ["process"]
          undoneByFailedApply := block.transactions.reverse
          queued := block.transactions.reverse
          pushedToStorage := ab.pushedToStorage
          confirmedApplied := ab.confirmedApplied }
      else
        { state := ab.state, errors := [],
          undoneByFailedApply := [], queued := [],
          pushedToStorage := ab.pushedToStorage,
          confirmedApplied := ab.confirmedApplied }

theorem undoFold_applyFold {σ : Type} (ops : TrsOps σ)
    (hinv : ∀ trs st, ops.undoUnconfirmed trs (ops.applyUnconfirmed trs st) = st) :
    ∀ (txs : List Transaction) (s : σ),
      undoFold ops txs.reverse (applyFold ops txs s) = s := by
  intro txs
  induction txs with
  | nil => intro s; rfl
  | cons t rest ih =>
    intro s
    simp only [applyFold, List.foldl_cons, List.reverse_cons, undoFold, List.foldl_append,
      List.foldl_cons, List.foldl_nil]
    have h1 : List.foldl (fun st trs => ops.undoUnconfirmed trs st)
        (List.foldl (fun st trs => ops.applyUnconfirmed trs st)
          (ops.applyUnconfirmed t s) rest) rest.reverse = ops.applyUnconfirmed t s := by
      have := ih (ops.applyUnconfirmed t s)
      simpa [undoFold, applyFold] using this
    rw [h1, hinv]

theorem checkLoop_firstFail {σ : Type} (ops : TrsOps σ) :
    ∀ (txs : List Transaction) (s : σ) (i : Nat) (hi : i < txs.length),
      (∀ j (hj : j < i),
        (ops.verifyUnconfirmedErrors (txs.get ⟨j, Nat.lt_trans hj hi⟩)
          (applyFold ops (txs.take j) s)).isEmpty = true) →
      (ops.verifyUnconfirmedErrors (txs.get ⟨i, hi⟩)
          (applyFold ops (txs.take i) s)).isEmpty = false →
      checkLoop ops true txs s =
        (applyFold ops (txs.take i) s,
          ops.verifyUnconfirmedErrors (txs.get ⟨i, hi⟩) (applyFold ops (txs.take i) s),
          txs.take i) := by
  intro txs
  induction txs with
  | nil =>
    intro s i hi
    exact absurd hi (by simp)
  | cons t rest ih =>
    intro s i hi hok hbad
    cases i with
    | zero =>
      simp only [List.take_zero, applyFold, List.foldl_nil, List.get] at hbad ⊢
      simp only [checkLoop, hbad, Bool.false_eq_true, if_false, if_true]
    | succ n =>
      have h0 : (ops.verifyUnconfirmedErrors t s).isEmpty = true := by
        have := hok 0 (Nat.succ_pos n)
        simpa [applyFold] using this
      have hn : n < rest.length := Nat.lt_of_succ_lt_succ hi
      have hok' : ∀ j (hj : j < n),
          (ops.verifyUnconfirmedErrors (rest.get ⟨j, Nat.lt_trans hj hn⟩)
            (applyFold ops (rest.take j) (ops.applyUnconfirmed t s))).isEmpty = true := by
        intro j hj
        have := hok (j + 1) (Nat.succ_lt_succ hj)
        simpa [applyFold, List.take_succ_cons] using this
      have hbad' : (ops.verifyUnconfirmedErrors (rest.get ⟨n, hn⟩)
          (applyFold ops (rest.take n) (ops.applyUnconfirmed t s))).isEmpty = false := by
        simpa [applyFold, List.take_succ_cons] using hbad
      have hrec := ih (ops.applyUnconfirmed t s) n hn hok' hbad'
      simp only [checkLoop, h0, if_true, hrec, List.take_succ_cons, applyFold,
        List.foldl_cons, List.get]

/-- C1: under `verify`, when `verifyUnconfirmed` first fails at 0-based
position `i` of the block's stored order,
`checkTransactionsAndApplyUnconfirmed` has applied exactly the transactions
before `i` (the failing transaction is not applied), undoes them in strict
LIFO order — positions `i-1` down to `0` — returns a failure, and leaves
the net unconfirmed account state unchanged (given that `undoUnconfirmed`
inverts `applyUnconfirmed`). -/
theorem checkTransactions_firstFail_rollback {σ : Type} (ops : TrsOps σ)
    (block : Block) (s : σ) (i : Nat) (hi : i < block.transactions.length)
    (hok : ∀ j (hj : j < i),
      (ops.verifyUnconfirmedErrors (block.transactions.get ⟨j, Nat.lt_trans hj hi⟩)
        (applyFold ops (block.transactions.take j) s)).isEmpty = true)
    (hbad : (ops.verifyUnconfirmedErrors (block.transactions.get ⟨i, hi⟩)
        (applyFold ops (block.transactions.take i) s)).isEmpty = false)
    (hinv : ∀ trs st, ops.undoUnconfirmed trs (ops.applyUnconfirmed trs st) = st) :
    (checkTransactionsAndApplyUnconfirmed ops block true s).errors ≠ [] ∧
      (checkTransactionsAndApplyUnconfirmed ops block true s).applied =
        block.transactions.take i ∧
      (checkTransactionsAndApplyUnconfirmed ops block true s).undone =
        (block.transactions.take i).reverse ∧
      (checkTransactionsAndApplyUnconfirmed ops block true s).state = s := by
  have hloop := checkLoop_firstFail ops block.transactions s i hi hok hbad
  unfold checkTransactionsAndApplyUnconfirmed
  rw [hloop]
  simp only [hbad, Bool.false_eq_true, if_false]
  refine ⟨?_, by trivial, by trivial, ?_⟩
  · intro h
    rw [h] at hbad
    simp at hbad
  · exact undoFold_applyFold ops hinv (block.transactions.take i) s

/-- Concrete handler instantiation used by the witnesses: the account state
is a single unconfirmed balance, `applyUnconfirmed` charges the fee,
`undoUnconfirmed` refunds it, `verifyUnconfirmed` fails on insufficient
balance. -/
def feeOps : TrsOps Int :=
  { verifyUnconfirmedErrors := fun trs st =>
      if st < trs.fee then ["Not enough money"] else []
    applyUnconfirmed := fun trs st => st - trs.fee
    undoUnconfirmed := fun trs st => st + trs.fee
    apply := fun trs st => st - trs.fee
    undo := fun trs st => st + trs.fee
    calculateFee := fun trs _ => trs.fee }

/-- A transaction template for the witnesses. -/
def mkTx (id : String) (fee : Int) : Transaction :=
  { id := id, type := TransactionType.SEND, createdAt := 0, fee := fee,
    senderAddress := "A1", senderPublicKey := "pkA", asset := Asset.plain }

/-- A block whose second transaction fails `verifyUnconfirmed` at balance
10: the first costs 1, the second 100. -/
def c1Block : Block :=
  { id := "b1", version := 1, height := 2, previousBlockId := some "b0",
    createdAt := 0, generatorPublicKey := "g", signature := "", payloadHash := "",
    transactionCount := 2, amount := 0, fee := 0,
    transactions := [mkTx "t1" 1, mkTx "t2" 100] }

/-- Witness for C1 at a concrete block and balance: the failure is at
position 1, only position 0 was applied, it is undone, and the state is
restored. -/
theorem checkTransactions_firstFail_rollback_witness :
    (checkTransactionsAndApplyUnconfirmed feeOps c1Block true 10).errors ≠ [] ∧
      (checkTransactionsAndApplyUnconfirmed feeOps c1Block true 10).applied =
        c1Block.transactions.take 1 ∧
      (checkTransactionsAndApplyUnconfirmed feeOps c1Block true 10).undone =
        (c1Block.transactions.take 1).reverse ∧
      (checkTransactionsAndApplyUnconfirmed feeOps c1Block true 10).state = 10 :=
  checkTransactions_firstFail_rollback feeOps c1Block 10 1 (by decide)
    (by decide) (by decide) (fun trs st => by simp [feeOps])

/-- Environment for the C2 run: the durable `batchSave` fails, everything
before it succeeds. -/
def c2Env : ProcessEnv Int :=
  { ops := feeOps
    batchSaveErrors := ["batch save failed"]
    storageHas := false
    verifyBlockErrors := []
    verifyBlockSlotErrors := [] }

/-- A block whose two transactions both pass `verifyUnconfirmed` at
balance 10. -/
def c2Block : Block :=
  { id := "b2", version := 1, height := 2, previousBlockId := some "b0",
    createdAt := 0, generatorPublicKey := "g", signature := "", payloadHash := "",
    transactionCount := 2, amount := 0, fee := 0,
    transactions := [mkTx "t1" 1, mkTx "t2" 2] }

/-- C2 counterexample: on a concrete run where every transaction was
applied unconfirmed and the durable save then fails, `process` does invoke
`undoUnconfirmed` — on both of the block's transactions, in reverse order —
so the claim that no `undoUnconfirmed` runs on the durable-save failure
path is false. -/
theorem process_saveFail_does_undo :
    (process c2Env c2Block true 10).undoneByFailedApply ≠ [] ∧
      (process c2Env c2Block true 10).undoneByFailedApply =
        [mkTx "t2" 2, mkTx "t1" 1] ∧
      (process c2Env c2Block true 10).errors ≠ [] := by
  refine ⟨by decide, by decide, by decide⟩

/-- C2 amended: if the durable batch-save fails after
`checkTransactionsAndApplyUnconfirmed` succeeded, `process` returns the
errors and rolls the unconfirmed applies back: `undoUnconfirmed` is invoked
on all of the block's transactions in reverse stored order and they are
pushed back to the queue. -/
theorem process_saveFail_rollback {σ : Type} (env : ProcessEnv σ) (block : Block)
    (s : σ)
    (hver1 : env.verifyBlockErrors = [])
    (hver2 : env.verifyBlockSlotErrors = [])
    (hhas : env.storageHas = false)
    (hchk : (checkTransactionsAndApplyUnconfirmed env.ops block true s).errors = [])
    (hsave : env.batchSaveErrors ≠ []) :
    (process env block true s).errors =
        env.batchSaveErrors ++ ["applyBlock"] ++ ["process"] ∧
      (process env block true s).undoneByFailedApply = block.transactions.reverse ∧
      (process env block true s).queued = block.transactions.reverse := by
  have hie : env.batchSaveErrors.isEmpty = false := by
    cases h : env.batchSaveErrors with
    | nil => exact absurd h hsave
    | cons a l => rfl
  simp only [process, applyBlock, hver1, hver2, hhas, hchk, hie]
  norm_num

/-- Witness for the amended C2 at the concrete failing-save run. -/
theorem process_saveFail_rollback_witness :
    (process c2Env c2Block true 10).errors =
        c2Env.batchSaveErrors ++ ["applyBlock"] ++ ["process"] ∧
      (process c2Env c2Block true 10).undoneByFailedApply =
        c2Block.transactions.reverse ∧
      (process c2Env c2Block true 10).queued = c2Block.transactions.reverse :=
  process_saveFail_rollback c2Env c2Block 10 rfl rfl rfl (by decide) (by decide)

/-! ## The transaction pool (C6, C7, C8, C10)

`TransactionPoolService`.  JS `Map`s are association lists preserving
insertion order; `Map.get` on a missing sender/recipient key yields the
empty list as in the source's `|| []`. -/

/-- `Map.get(a)` on an insertion-ordered association list, first match. -/
def alistFind {β : Type} (m : List (String × β)) (a : String) : Option β :=
  (m.find? (fun e => e.1 == a)).map (fun e => e.2)

/-- `Map.has(a)`. -/
def alistHas {β : Type} (m : List (String × β)) (a : String) : Bool :=
  (m.find? (fun e => e.1 == a)).isSome

/-- `Map.set(a, v)`: update the existing key in place, else append. -/
def alistSet {β : Type} : List (String × β) → String → β → List (String × β)
  | [], a, v => [(a, v)]
  | e :: rest, a, v => if e.1 == a then (a, v) :: rest else e :: alistSet rest a v

/-- `poolBySender.get(a) || []` / `poolByRecipient.get(a) || []`. -/
def alistGet (m : List (String × List Transaction)) (a : String) : List Transaction :=
  (alistFind m a).getD []

/-- The transaction pool state: the `pool` map in insertion order, the two
secondary indices, the abstract account state, and the logs of
`applyUnconfirmed` / `undoUnconfirmed` calls and broadcasts. -/
structure PoolState (σ : Type) where
  pool : List Transaction
  poolBySender : List (String × List Transaction)
  poolByRecipient : List (String × List Transaction)
  accounts : σ
  appliedLog : List Transaction
  undoneLog : List Transaction
  broadcasted : List Transaction
  deriving Repr

/-- `pool.has(trs.id)`. -/
def poolHasId {σ : Type} (s : PoolState σ) (id : String) : Bool :=
  s.pool.any (fun t => t.id == id)

/-- `addOneToPoolByRecipient(address, trs)`. -/
def addOneToPoolByRecipient (address : Address) (trs : Transaction)
    (m : List (String × List Transaction)) : List (String × List Transaction) :=
  alistSet m address (alistGet m address ++ [trs])

/-- `removeOneFromPoolByRecipient(address, trs)`: splice out the first
occurrence when present. -/
def removeOneFromPoolByRecipient (address : Address) (trs : Transaction)
    (m : List (String × List Transaction)) : List (String × List Transaction) :=
  if alistHas m address ∧ trs ∈ alistGet m address then
    alistSet m address ((alistGet m address).erase trs)
  else m

/-- The airdrop sponsor addresses of a VOTE/STAKE asset. -/
def assetSponsors : Asset → List Address
  | .vote _ _ sponsors => sponsors
  | .stake sponsors => sponsors
  | _ => []

/-- `asset.reward || asset.unstake` of a VOTE asset. -/
def assetRewardOrUnstake : Asset → Bool
  | .vote reward unstake _ => reward || unstake
  | _ => false

/-- `asset.recipientAddress` of a SEND asset. -/
def assetRecipient : Asset → List Address
  | .transfer recipientAddress _ => [recipientAddress]
  | _ => []

/-- The recipient-index additions `push` performs, by type: the direct
recipient for SEND, every sponsor for VOTE when `reward` or `unstake`, and
every sponsor for STAKE. -/
def pushRecipients (trs : Transaction) : List Address :=
  (if trs.type = TransactionType.SEND then assetRecipient trs.asset else []) ++
    (if trs.type = TransactionType.VOTE ∧ assetRewardOrUnstake trs.asset = true
      then assetSponsors trs.asset else []) ++
    (if trs.type = TransactionType.STAKE then assetSponsors trs.asset else [])

/-- The recipient-index removals `remove` performs, by type: the direct
recipient for SEND, every sponsor for VOTE or STAKE (regardless of the
reward/unstake flags — each removal is a no-op when absent). -/
def removeRecipients (trs : Transaction) : List Address :=
  (if trs.type = TransactionType.SEND then assetRecipient trs.asset else []) ++
    (if trs.type = TransactionType.VOTE ∨ trs.type = TransactionType.STAKE
      then assetSponsors trs.asset else [])

/-- `TransactionPoolService.push(trs, sender, broadcast)`: reject
duplicates; insert into `pool` and `poolBySender`; add the per-type
recipient-index entries; `applyUnconfirmed`; optionally broadcast. -/
def poolPush {σ : Type} (ops : TrsOps σ) (trs : Transaction) (broadcast : Bool)
    (s : PoolState σ) : PoolState σ :=
  if poolHasId s trs.id then s
  else
    let s1 := { s with pool := s.pool ++ [trs] }
    let senderList := alistGet s1.poolBySender trs.senderAddress ++ [trs]
    let s2 := { s1 with poolBySender := alistSet s1.poolBySender trs.senderAddress senderList }
    let recipientIdx := (pushRecipients trs).foldl (fun m address => addOneToPoolByRecipient address trs m) s2.poolByRecipient
    let s3 := { s2 with poolByRecipient := recipientIdx }
    let s4 := { s3 with accounts := ops.applyUnconfirmed trs s3.accounts, appliedLog := s3.appliedLog ++ [trs] }
    if broadcast then { s4 with broadcasted := s4.broadcasted ++ [trs] } else s4

/-- `TransactionPoolService.remove(trs)`: when the id is pooled,
`undoUnconfirmed`, delete from `pool`, splice the first occurrence out of
the sender list, and undo the per-type recipient-index entries. -/
def poolRemove {σ : Type} (ops : TrsOps σ) (trs : Transaction)
    (s : PoolState σ) : PoolState σ :=
  if poolHasId s trs.id then
    let s1 := { s with accounts := ops.undoUnconfirmed trs s.accounts, undoneLog := s.undoneLog ++ [trs] }
    let s2 := { s1 with pool := s1.pool.eraseP (fun t => t.id == trs.id) }
    let splicedSender := alistSet s2.poolBySender trs.senderAddress ((alistGet s2.poolBySender trs.senderAddress).erase trs)
    let s3 := if alistHas s2.poolBySender trs.senderAddress ∧ trs ∈ alistGet s2.poolBySender trs.senderAddress then { s2 with poolBySender := splicedSender } else s2
    let recipientIdx := (removeRecipients trs).foldl (fun m address => removeOneFromPoolByRecipient address trs m) s3.poolByRecipient
    { s3 with poolByRecipient := recipientIdx }
  else s

/-- `popSortedUnconfirmedTransactions(limit)`: take the first `limit` pool
transactions in `transactionSortFunc` order, then remove them from the pool
newest-first (the reversed slice). -/
def popSortedUnconfirmedTransactions {σ : Type} (ops : TrsOps σ) (limit : Nat)
    (s : PoolState σ) : List Transaction × PoolState σ :=
  let transactions := (s.pool.mergeSort trsLe).take limit
  let reversedTransactions := transactions.reverse
  (transactions, reversedTransactions.foldl (fun st trs => poolRemove ops trs st) s)

/-- `isPotentialConflict(trs)`: dependents are the pooled transactions with
`trs.senderAddress` as indexed recipient or as sender. -/
def isPotentialConflict {σ : Type} (s : PoolState σ) (trs : Transaction) : Bool :=
  let recipientTrs := alistGet s.poolByRecipient trs.senderAddress
  let senderTrs := alistGet s.poolBySender trs.senderAddress
  let dependTransactions := recipientTrs ++ senderTrs
  if dependTransactions.isEmpty then false
  else if trs.type = TransactionType.SIGNATURE then true
  else if trs.type = TransactionType.REGISTER ∧
      (dependTransactions.find? (fun t => t.type == TransactionType.REGISTER)).isSome
    then true
  else
    let sorted := (dependTransactions ++ [trs]).mergeSort trsLe
    sorted.indexOf trs != sorted.length - 1

/-- C10: pushing a transaction whose id is already pooled is a no-op: the
state — pool, both indices, account state, and the apply/broadcast logs —
is returned unchanged. -/
theorem poolPush_duplicate_noop {σ : Type} (ops : TrsOps σ) (trs : Transaction)
    (broadcast : Bool) (s : PoolState σ) (hdup : poolHasId s trs.id = true) :
    poolPush ops trs broadcast s = s := by
  unfold poolPush
  rw [if_pos hdup]

/-- A one-transaction pool state used by the C10 witness. -/
def c10State : PoolState Int :=
  { pool := [mkTx "t1" 1]
    poolBySender := [("A1", [mkTx "t1" 1])]
    poolByRecipient := []
    accounts := 9
    appliedLog := [mkTx "t1" 1]
    undoneLog := []
    broadcasted := [] }

/-- Witness for C10: pushing the already-pooled transaction again changes
nothing. -/
theorem poolPush_duplicate_noop_witness :
    poolPush feeOps (mkTx "t1" 1) true c10State = c10State :=
  poolPush_duplicate_noop feeOps (mkTx "t1" 1) true c10State (by decide)

/-- C8: `isPotentialConflict` returns false when no pooled transaction has
`trs.senderAddress` as sender or indexed recipient; otherwise it is true
for SIGNATURE transactions, true for REGISTER transactions when some
dependent is also a REGISTER, and otherwise true exactly when sorting the
dependents together with `trs` does not place `trs` in the last position. -/
theorem isPotentialConflict_spec {σ : Type} (s : PoolState σ) (trs : Transaction) :
    isPotentialConflict s trs = true ↔
      (alistGet s.poolByRecipient trs.senderAddress ++
          alistGet s.poolBySender trs.senderAddress ≠ [] ∧
        (trs.type = TransactionType.SIGNATURE ∨
          (trs.type = TransactionType.REGISTER ∧
            ∃ t ∈ alistGet s.poolByRecipient trs.senderAddress ++
              alistGet s.poolBySender trs.senderAddress,
              t.type = TransactionType.REGISTER) ∨
          ((alistGet s.poolByRecipient trs.senderAddress ++
              alistGet s.poolBySender trs.senderAddress ++ [trs]).mergeSort trsLe).indexOf
              trs ≠
            ((alistGet s.poolByRecipient trs.senderAddress ++
              alistGet s.poolBySender trs.senderAddress ++ [trs]).mergeSort trsLe).length -
              1)) := by
  unfold isPotentialConflict
  by_cases hdep : (alistGet s.poolByRecipient trs.senderAddress ++
      alistGet s.poolBySender trs.senderAddress).isEmpty = true
  · rw [if_pos hdep]
    simp only [Bool.false_eq_true, false_iff, not_and]
    intro hne
    exact absurd (List.isEmpty_iff.mp hdep) hne
  · rw [if_neg hdep]
    have hne : alistGet s.poolByRecipient trs.senderAddress ++
        alistGet s.poolBySender trs.senderAddress ≠ [] := by
      intro h
      exact hdep (List.isEmpty_iff.mpr h)
    by_cases hsig : trs.type = TransactionType.SIGNATURE
    · rw [if_pos hsig]
      simp only [true_iff]
      exact ⟨hne, Or.inl hsig⟩
    · rw [if_neg hsig]
      by_cases hreg : trs.type = TransactionType.REGISTER ∧
          ((alistGet s.poolByRecipient trs.senderAddress ++
            alistGet s.poolBySender trs.senderAddress).find?
              (fun t => t.type == TransactionType.REGISTER)).isSome = true
      · rw [if_pos hreg]
        simp only [true_iff]
        obtain ⟨hr, hfind⟩ := hreg
        rw [List.find?_isSome] at hfind
        obtain ⟨t, hmem, ht⟩ := hfind
        exact ⟨hne, Or.inr (Or.inl ⟨hr, t, hmem, by simpa using ht⟩)⟩
      · rw [if_neg hreg, bne_iff_ne]
        constructor
        · intro hlast
          refine ⟨hne, Or.inr (Or.inr ?_)⟩
          simpa [List.append_assoc] using hlast
        · rintro ⟨-, hor⟩
          rcases hor with h | h | h
          · exact absurd h hsig
          · refine absurd ?_ hreg
            obtain ⟨hr, t, hmem, ht⟩ := h
            refine ⟨hr, ?_⟩
            rw [List.find?_isSome]
            exact ⟨t, hmem, by simpa using ht⟩
          · simpa [List.append_assoc] using h

/-! ### Association-list lemmas -/

theorem alistGet_cons (x : String × List Transaction) (l : List (String × List Transaction))
    (b : String) :
    alistGet (x :: l) b = if x.1 == b then x.2 else alistGet l b := by
  unfold alistGet alistFind
  by_cases h : x.1 = b
  · simp [List.find?_cons, h]
  · simp [List.find?_cons, beq_eq_false_iff_ne.mpr h, h]

theorem alistGet_alistSet (m : List (String × List Transaction)) (a b : String)
    (v : List Transaction) :
    alistGet (alistSet m a v) b = if b = a then v else alistGet m b := by
  induction m with
  | nil =>
    unfold alistSet
    by_cases h : b = a
    · subst h
      simp [alistGet, alistFind, List.find?]
    · simp [alistGet, alistFind, List.find?, beq_eq_false_iff_ne.mpr (Ne.symm h), h]
  | cons e rest ih =>
    unfold alistSet
    by_cases he : e.1 = a
    · rw [if_pos (by simp [he])]
      by_cases hb : b = a
      · subst hb
        simp [alistGet_cons]
      · have h1 : ((a : String) == b) = false := beq_eq_false_iff_ne.mpr (Ne.symm hb)
        have h2 : (e.1 == b) = false := by
          rw [he]
          exact h1
        rw [alistGet_cons, alistGet_cons, h1, h2]
        simp [hb]
    · rw [if_neg (by simp [he])]
      rw [alistGet_cons, ih]
      by_cases hb : e.1 = b
      · have hba : ¬b = a := by
          intro h
          exact he (hb.trans h)
        rw [if_pos (by simp [hb]), if_neg hba, alistGet_cons, if_pos (by simp [hb])]
      · rw [if_neg (by simp [hb])]
        by_cases hba : b = a
        · rw [if_pos hba, if_pos hba]
        · rw [if_neg hba, if_neg hba, alistGet_cons, if_neg (by simp [hb])]

theorem alistGet_eq_nil_of_not_has (m : List (String × List Transaction)) (a : String)
    (h : alistHas m a = false) : alistGet m a = [] := by
  unfold alistHas at h
  unfold alistGet alistFind
  cases hf : m.find? (fun e => e.1 == a) with
  | none => rfl
  | some e =>
    rw [hf] at h
    simp at h

theorem alistGet_addOne (address : Address) (trs : Transaction)
    (m : List (String × List Transaction)) (b : String) :
    alistGet (addOneToPoolByRecipient address trs m) b =
      if b = address then alistGet m address ++ [trs] else alistGet m b := by
  unfold addOneToPoolByRecipient
  rw [alistGet_alistSet]

theorem alistGet_removeOne (address : Address) (trs : Transaction)
    (m : List (String × List Transaction)) (b : String) :
    alistGet (removeOneFromPoolByRecipient address trs m) b =
      if b = address ∧ trs ∈ alistGet m address then (alistGet m address).erase trs
      else alistGet m b := by
  unfold removeOneFromPoolByRecipient
  by_cases hc : alistHas m address ∧ trs ∈ alistGet m address
  · rw [if_pos hc, alistGet_alistSet]
    by_cases hb : b = address
    · simp [hb, hc.2]
    · simp [hb]
  · rw [if_neg hc]
    by_cases hb : b = address
    · subst hb
      by_cases hm : trs ∈ alistGet m b
      · exfalso
        rcases hh : alistHas m b with _ | _
        · rw [alistGet_eq_nil_of_not_has m b hh] at hm
          simp at hm
        · exact hc ⟨hh, hm⟩
      · simp [hm]
    · simp [hb]

theorem count_addFold (addrs : List Address) (trs : Transaction)
    (m : List (String × List Transaction)) (b : String) :
    (alistGet (addrs.foldl (fun mm ad => addOneToPoolByRecipient ad trs mm) m) b).count trs =
      (alistGet m b).count trs + addrs.count b := by
  induction addrs generalizing m with
  | nil => simp
  | cons ad rest ih =>
    rw [List.foldl_cons, ih, alistGet_addOne]
    by_cases hb : b = ad
    · subst hb
      rw [if_pos rfl]
      simp only [List.count_append, List.count_cons, List.count_nil, beq_self_eq_true,
        if_true, List.count_singleton]
      omega
    · rw [if_neg hb]
      have hcnt : List.count b (ad :: rest) = List.count b rest := by
        simp [List.count_cons, beq_eq_false_iff_ne.mpr (Ne.symm hb)]
    -- counts at a different address are untouched
      omega

theorem count_removeFold (addrs : List Address) (trs : Transaction)
    (m : List (String × List Transaction)) (b : String) :
    (alistGet (addrs.foldl (fun mm ad => removeOneFromPoolByRecipient ad trs mm) m) b).count
        trs =
      (alistGet m b).count trs - addrs.count b := by
  induction addrs generalizing m with
  | nil => simp
  | cons ad rest ih =>
    rw [List.foldl_cons, ih]
    have hone : (alistGet (removeOneFromPoolByRecipient ad trs m) b).count trs =
        (alistGet m b).count trs - if b = ad then 1 else 0 := by
      rw [alistGet_removeOne]
      by_cases hb : b = ad
      · subst hb
        by_cases hm : trs ∈ alistGet m b
        · rw [if_pos ⟨rfl, hm⟩, if_pos rfl]
          simp [List.count_erase_self]
        · rw [if_neg (by simp [hm]), if_pos rfl]
          have : (alistGet m b).count trs = 0 := List.count_eq_zero.mpr hm
          omega
      · rw [if_neg (by simp [hb]), if_neg hb]
        omega
    rw [hone]
    by_cases hb : b = ad
    · subst hb
      rw [if_pos rfl]
      have hcnt : List.count b (b :: rest) = List.count b rest + 1 := by
        simp [List.count_cons]
      rw [hcnt]
      omega
    · rw [if_neg hb]
      have hcnt : List.count b (ad :: rest) = List.count b rest := by
        simp [List.count_cons, beq_eq_false_iff_ne.mpr (Ne.symm hb)]
      rw [hcnt]
      omega

theorem count_pushRecipients_le (trs : Transaction) (b : String) :
    (pushRecipients trs).count b ≤ (removeRecipients trs).count b := by
  unfold pushRecipients removeRecipients
  rcases htype : trs.type <;> simp [htype, List.count_append]
  split_ifs <;> simp

theorem poolPush_fields {σ : Type} (ops : TrsOps σ) (trs : Transaction) (broadcast : Bool)
    (s : PoolState σ) (h : poolHasId s trs.id = false) :
    (poolPush ops trs broadcast s).pool = s.pool ++ [trs] ∧
      (poolPush ops trs broadcast s).poolBySender =
        alistSet s.poolBySender trs.senderAddress
          (alistGet s.poolBySender trs.senderAddress ++ [trs]) ∧
      (poolPush ops trs broadcast s).poolByRecipient =
        (pushRecipients trs).foldl
          (fun m address => addOneToPoolByRecipient address trs m) s.poolByRecipient ∧
      (poolPush ops trs broadcast s).accounts = ops.applyUnconfirmed trs s.accounts := by
  unfold poolPush
  rw [if_neg (by simp [h])]
  cases broadcast <;> exact ⟨rfl, rfl, rfl, rfl⟩

theorem poolRemove_fields {σ : Type} (ops : TrsOps σ) (trs : Transaction)
    (s : PoolState σ) (h : poolHasId s trs.id = true) :
    (poolRemove ops trs s).accounts = ops.undoUnconfirmed trs s.accounts ∧
      (poolRemove ops trs s).pool = s.pool.eraseP (fun t => t.id == trs.id) ∧
      (poolRemove ops trs s).undoneLog = s.undoneLog ++ [trs] ∧
      (poolRemove ops trs s).poolBySender =
        (if alistHas s.poolBySender trs.senderAddress ∧
            trs ∈ alistGet s.poolBySender trs.senderAddress
          then alistSet s.poolBySender trs.senderAddress
            ((alistGet s.poolBySender trs.senderAddress).erase trs)
          else s.poolBySender) ∧
      (poolRemove ops trs s).poolByRecipient =
        (removeRecipients trs).foldl
          (fun m address => removeOneFromPoolByRecipient address trs m)
          s.poolByRecipient := by
  unfold poolRemove
  rw [if_pos h]
  dsimp only
  refine ⟨?_, ?_, ?_, ?_, ?_⟩ <;> split_ifs <;> rfl

/-- C7: pushing a transaction that is not already pooled (and indexed
nowhere, per the pool invariant) and then removing it restores the account
state bit-exact — `undoUnconfirmed` inverting `applyUnconfirmed` — restores
the pool map itself, and leaves no entry for the transaction in the pool
map, the `poolBySender` index, or the `poolByRecipient` index. -/
theorem poolPush_remove_restores {σ : Type} (ops : TrsOps σ) (trs : Transaction)
    (broadcast : Bool) (s : PoolState σ)
    (hpool : poolHasId s trs.id = false)
    (hsender : ∀ a, trs ∉ alistGet s.poolBySender a)
    (hrecip : ∀ a, trs ∉ alistGet s.poolByRecipient a)
    (hinv : ops.undoUnconfirmed trs (ops.applyUnconfirmed trs s.accounts) = s.accounts) :
    (poolRemove ops trs (poolPush ops trs broadcast s)).accounts = s.accounts ∧
      (poolRemove ops trs (poolPush ops trs broadcast s)).pool = s.pool ∧
      poolHasId (poolRemove ops trs (poolPush ops trs broadcast s)) trs.id = false ∧
      (∀ a, trs ∉
        alistGet (poolRemove ops trs (poolPush ops trs broadcast s)).poolBySender a) ∧
      (∀ a, trs ∉
        alistGet (poolRemove ops trs (poolPush ops trs broadcast s)).poolByRecipient a) := by
  obtain ⟨hp, hs, hr, ha⟩ := poolPush_fields ops trs broadcast s hpool
  have hfree : ∀ t ∈ s.pool, (t.id == trs.id) = false := by
    have h' := hpool
    unfold poolHasId at h'
    rw [List.any_eq_false] at h'
    intro t ht
    simpa using h' t ht
  have hhas : poolHasId (poolPush ops trs broadcast s) trs.id = true := by
    unfold poolHasId
    rw [hp]
    simp
  obtain ⟨ra, rp, rl, rs, rr⟩ := poolRemove_fields ops trs (poolPush ops trs broadcast s) hhas
  have hpoolEq : (poolRemove ops trs (poolPush ops trs broadcast s)).pool = s.pool := by
    rw [rp, hp, List.eraseP_append_right _ (by intro b hb; simp [hfree b hb])]
    simp
  have hgetS : alistGet (poolPush ops trs broadcast s).poolBySender trs.senderAddress =
      alistGet s.poolBySender trs.senderAddress ++ [trs] := by
    rw [hs, alistGet_alistSet, if_pos rfl]
  have hmemS : trs ∈ alistGet (poolPush ops trs broadcast s).poolBySender trs.senderAddress := by
    rw [hgetS]
    simp
  have hhasS : alistHas (poolPush ops trs broadcast s).poolBySender trs.senderAddress = true := by
    rcases hh : alistHas (poolPush ops trs broadcast s).poolBySender trs.senderAddress with _ | _
    · exfalso
      have := alistGet_eq_nil_of_not_has _ _ hh
      rw [this] at hmemS
      simp at hmemS
    · rfl
  have hsenderFinal : ∀ a,
      alistGet (poolRemove ops trs (poolPush ops trs broadcast s)).poolBySender a =
        alistGet s.poolBySender a := by
    intro a
    rw [rs, if_pos ⟨hhasS, hmemS⟩, alistGet_alistSet]
    by_cases hb : a = trs.senderAddress
    · subst hb
      rw [if_pos rfl, hgetS,
        List.erase_append_right _ (hsender trs.senderAddress), List.erase_cons_head]
      simp
    · rw [if_neg hb, hs, alistGet_alistSet, if_neg hb]
  refine ⟨?_, hpoolEq, ?_, ?_, ?_⟩
  · rw [ra, ha, hinv]
  · unfold poolHasId
    rw [hpoolEq]
    exact hpool
  · intro a
    rw [hsenderFinal a]
    exact hsender a
  · intro a
    have hcnt : (alistGet
        (poolRemove ops trs (poolPush ops trs broadcast s)).poolByRecipient a).count trs
          = 0 := by
      rw [rr, hr, count_removeFold, count_addFold]
      have h0 : (alistGet s.poolByRecipient a).count trs = 0 :=
        List.count_eq_zero.mpr (hrecip a)
      have hle := count_pushRecipients_le trs a
      omega
    exact List.count_eq_zero.mp hcnt

/-- An empty pool state over the single-balance account model, used by the
witnesses. -/
def emptyPool : PoolState Int :=
  { pool := [], poolBySender := [], poolByRecipient := [], accounts := 100,
    appliedLog := [], undoneLog := [], broadcasted := [] }

/-- A VOTE transaction with airdrop sponsors, exercising the recipient
index. -/
def c7Tx : Transaction :=
  { id := "v1", type := TransactionType.VOTE, createdAt := 0, fee := 3,
    senderAddress := "A1", senderPublicKey := "pkA",
    asset := Asset.vote true false ["S1", "S2"] }

/-- Witness for C7: push-then-remove of a sponsored VOTE transaction on the
empty pool restores the balance and leaves no trace in any index. -/
theorem poolPush_remove_restores_witness :
    (poolRemove feeOps c7Tx (poolPush feeOps c7Tx true emptyPool)).accounts =
        emptyPool.accounts ∧
      (poolRemove feeOps c7Tx (poolPush feeOps c7Tx true emptyPool)).pool =
        emptyPool.pool ∧
      poolHasId (poolRemove feeOps c7Tx (poolPush feeOps c7Tx true emptyPool))
        c7Tx.id = false ∧
      (∀ a, c7Tx ∉
        alistGet (poolRemove feeOps c7Tx
          (poolPush feeOps c7Tx true emptyPool)).poolBySender a) ∧
      (∀ a, c7Tx ∉
        alistGet (poolRemove feeOps c7Tx
          (poolPush feeOps c7Tx true emptyPool)).poolByRecipient a) :=
  poolPush_remove_restores feeOps c7Tx true emptyPool (by decide)
    (fun a => by simp [emptyPool, alistGet, alistFind])
    (fun a => by simp [emptyPool, alistGet, alistFind])
    (by simp [feeOps])

theorem eraseP_id_eq_filter (l : List Transaction) (k : String)
    (h : (l.map (fun t => t.id)).Nodup) :
    l.eraseP (fun t => t.id == k) = l.filter (fun t => !(t.id == k)) := by
  induction l with
  | nil => rfl
  | cons t rest ih =>
    rw [List.map_cons, List.nodup_cons] at h
    by_cases ht : t.id = k
    · rw [List.eraseP_cons_of_pos (by simp [ht]), List.filter_cons_of_neg (by simp [ht])]
      subst ht
      rw [List.filter_eq_self.mpr]
      intro a ha
      have hne : a.id ≠ t.id := by
        intro he
        exact h.1 (he ▸ List.mem_map_of_mem (fun x => x.id) ha)
      simp [hne]
    · rw [List.eraseP_cons_of_neg (by simp [ht]), List.filter_cons_of_pos (by simp [ht]),
        ih h.2]

theorem foldRemove_pool {σ : Type} (ops : TrsOps σ) :
    ∀ (rs : List Transaction) (s : PoolState σ),
      (s.pool.map (fun t => t.id)).Nodup →
      (rs.map (fun t => t.id)).Nodup →
      (∀ t ∈ rs, poolHasId s t.id = true) →
      ((rs.foldl (fun st t => poolRemove ops t st) s).pool =
          s.pool.filter (fun t => !(rs.any (fun r => r.id == t.id))) ∧
        (rs.foldl (fun st t => poolRemove ops t st) s).undoneLog =
          s.undoneLog ++ rs) := by
  intro rs
  induction rs with
  | nil =>
    intro s _ _ _
    simp
  | cons r rest ih =>
    intro s hpool hrs hpres
    rw [List.map_cons, List.nodup_cons] at hrs
    have hr : poolHasId s r.id = true := hpres r (by simp)
    obtain ⟨-, rp, rl, -, -⟩ := poolRemove_fields ops r s hr
    have hfilter : (poolRemove ops r s).pool =
        s.pool.filter (fun t => !(t.id == r.id)) := by
      rw [rp, eraseP_id_eq_filter _ _ hpool]
    have hnodup1 : ((poolRemove ops r s).pool.map (fun t => t.id)).Nodup := by
      rw [hfilter]
      exact List.Nodup.sublist (List.Sublist.map _ (List.filter_sublist _)) hpool
    have hpres1 : ∀ t ∈ rest, poolHasId (poolRemove ops r s) t.id = true := by
      intro t ht
      have h0 := hpres t (by simp [ht])
      unfold poolHasId at h0 ⊢
      rw [List.any_eq_true] at h0
      obtain ⟨x, hx, hxid⟩ := h0
      rw [hfilter, List.any_eq_true]
      refine ⟨x, ?_, hxid⟩
      rw [List.mem_filter]
      refine ⟨hx, ?_⟩
      have htid : t.id ≠ r.id := by
        intro he
        exact hrs.1 (he ▸ List.mem_map_of_mem (fun x => x.id) ht)
      have hxid' : x.id = t.id := by simpa using hxid
      simp [hxid', htid]
    obtain ⟨ihp, ihl⟩ := ih (poolRemove ops r s) hnodup1 hrs.2 hpres1
    constructor
    · rw [List.foldl_cons, ihp, hfilter, List.filter_filter]
      apply List.filter_congr
      intro a _
      by_cases ha : a.id = r.id
      · have h1 : (a.id == r.id) = true := by simp [ha]
        have h2 : (r.id == a.id) = true := by simp [ha]
        simp [h1, h2, List.any_cons]
      · have h1 : (a.id == r.id) = false := by simp [ha]
        have h2 : (r.id == a.id) = false := by simp [Ne.symm ha]
        simp [h1, h2, List.any_cons]
    · rw [List.foldl_cons, ihl, rl, List.append_assoc, List.singleton_append]

/-- C6: over a pool with distinct transaction ids,
`popSortedUnconfirmedTransactions(limit)` returns pool transactions in
ascending `transactionSortFunc` order — the first `limit` of them: no
remaining pool transaction sorts before a returned one — removes exactly
the returned transactions from the pool, and performs the removals (each
appending to the `undoUnconfirmed` log via `remove`) in reverse returned
order, newest first. -/
theorem popSorted_spec {σ : Type} (ops : TrsOps σ) (limit : Nat) (s : PoolState σ)
    (hnodup : (s.pool.map (fun t => t.id)).Nodup) :
    List.Pairwise (fun a b => trsLe a b = true)
        (popSortedUnconfirmedTransactions ops limit s).1 ∧
      (popSortedUnconfirmedTransactions ops limit s).1.length =
        min limit s.pool.length ∧
      (∀ t ∈ (popSortedUnconfirmedTransactions ops limit s).1, t ∈ s.pool) ∧
      (∀ u ∈ s.pool,
        (∀ r ∈ (popSortedUnconfirmedTransactions ops limit s).1, r.id ≠ u.id) →
        ∀ t ∈ (popSortedUnconfirmedTransactions ops limit s).1, trsLe t u = true) ∧
      (∀ t, t ∈ (popSortedUnconfirmedTransactions ops limit s).2.pool ↔
        (t ∈ s.pool ∧
          ∀ r ∈ (popSortedUnconfirmedTransactions ops limit s).1, r.id ≠ t.id)) ∧
      (popSortedUnconfirmedTransactions ops limit s).2.undoneLog =
        s.undoneLog ++ (popSortedUnconfirmedTransactions ops limit s).1.reverse := by
  have hperm : (s.pool.mergeSort trsLe).Perm s.pool := List.mergeSort_perm _ _
  have hPW : List.Pairwise (fun a b => trsLe a b = true) (s.pool.mergeSort trsLe) :=
    List.sorted_mergeSort trsLe_trans trsLe_total s.pool
  have hret : (popSortedUnconfirmedTransactions ops limit s).1 =
      (s.pool.mergeSort trsLe).take limit := rfl
  have hmemRet : ∀ t ∈ (s.pool.mergeSort trsLe).take limit, t ∈ s.pool := by
    intro t ht
    exact hperm.mem_iff.mp ((List.take_sublist _ _).subset ht)
  have hsortIds : ((s.pool.mergeSort trsLe).map (fun t => t.id)).Nodup :=
    ((hperm.map (fun t => t.id)).nodup_iff).mpr hnodup
  have hretIds : (((s.pool.mergeSort trsLe).take limit).map (fun t => t.id)).Nodup :=
    List.Nodup.sublist (List.Sublist.map _ (List.take_sublist _ _)) hsortIds
  have hfold := foldRemove_pool ops ((s.pool.mergeSort trsLe).take limit).reverse s
    hnodup
    (by
      rw [List.map_reverse]
      exact List.nodup_reverse.mpr hretIds)
    (by
      intro t ht
      rw [List.mem_reverse] at ht
      unfold poolHasId
      rw [List.any_eq_true]
      exact ⟨t, hmemRet t ht, by simp⟩)
  have hstate : (popSortedUnconfirmedTransactions ops limit s).2 =
      ((s.pool.mergeSort trsLe).take limit).reverse.foldl
        (fun st trs => poolRemove ops trs st) s := rfl
  refine ⟨?_, ?_, ?_, ?_, ?_, ?_⟩
  · rw [hret]
    exact List.Pairwise.sublist (List.take_sublist _ _) hPW
  · rw [hret, List.length_take, List.length_mergeSort]
  · rw [hret]
    exact hmemRet
  · intro u hu hne t ht
    rw [hret] at hne ht
    have hu' : u ∈ (s.pool.mergeSort trsLe).take limit ++
        (s.pool.mergeSort trsLe).drop limit := by
      rw [List.take_append_drop]
      exact hperm.mem_iff.mpr hu
    rw [List.mem_append] at hu'
    rcases hu' with hu' | hu'
    · exact absurd rfl (hne u hu')
    · have hPW2 := hPW
      rw [← List.take_append_drop limit (s.pool.mergeSort trsLe),
        List.pairwise_append] at hPW2
      exact hPW2.2.2 t ht u hu'
  · intro t
    rw [hstate, hfold.1, List.mem_filter, hret]
    constructor
    · rintro ⟨hmem, hpred⟩
      refine ⟨hmem, ?_⟩
      intro r hr he
      rw [Bool.not_eq_true', List.any_eq_false] at hpred
      have := hpred r (List.mem_reverse.mpr hr)
      simp [he] at this
    · rintro ⟨hmem, hpred⟩
      refine ⟨hmem, ?_⟩
      rw [Bool.not_eq_true', List.any_eq_false]
      intro r hr
      rw [List.mem_reverse] at hr
      simp [hpred r hr]
  · rw [hstate, hfold.2, hret]

/-- A three-transaction pool used by the C6 witness. -/
def c6State : PoolState Int :=
  { pool := [mkTx "t3" 3, mkTx "t1" 1, mkTx "t2" 2]
    poolBySender := [("A1", [mkTx "t3" 3, mkTx "t1" 1, mkTx "t2" 2])]
    poolByRecipient := []
    accounts := 50
    appliedLog := []
    undoneLog := []
    broadcasted := [] }

/-- Witness for C6 at a concrete three-transaction pool with `limit = 2`. -/
theorem popSorted_spec_witness :
    List.Pairwise (fun a b => trsLe a b = true)
        (popSortedUnconfirmedTransactions feeOps 2 c6State).1 ∧
      (popSortedUnconfirmedTransactions feeOps 2 c6State).1.length =
        min 2 c6State.pool.length ∧
      (∀ t ∈ (popSortedUnconfirmedTransactions feeOps 2 c6State).1,
        t ∈ c6State.pool) ∧
      (∀ u ∈ c6State.pool,
        (∀ r ∈ (popSortedUnconfirmedTransactions feeOps 2 c6State).1, r.id ≠ u.id) →
        ∀ t ∈ (popSortedUnconfirmedTransactions feeOps 2 c6State).1,
          trsLe t u = true) ∧
      (∀ t, t ∈ (popSortedUnconfirmedTransactions feeOps 2 c6State).2.pool ↔
        (t ∈ c6State.pool ∧
          ∀ r ∈ (popSortedUnconfirmedTransactions feeOps 2 c6State).1,
            r.id ≠ t.id)) ∧
      (popSortedUnconfirmedTransactions feeOps 2 c6State).2.undoneLog =
        c6State.undoneLog ++
          (popSortedUnconfirmedTransactions feeOps 2 c6State).1.reverse :=
  popSorted_spec feeOps 2 c6State (by decide)

/-! ## C9 — deleting the last block

`deleteLastBlock` (`core/service/block.ts`).  The durable `deleteById`
outcome and `RoundService.restoreToSlot` (not part of the analysed sources)
are abstract inputs; the state carries a log of `deleteById` calls. -/

/-- Chain-level state touched by `deleteLastBlock`: the block storage (most
recent first), the per-generator `isForged` flags of the current round, the
account state, and the logs of durable deletes and undo calls. -/
structure ChainState (σ : Type) where
  blockStorage : List Block
  roundIsForged : List (String × Bool)
  accounts : σ
  deletedIds : List String
  undoneConfirmed : List Transaction
  undoneUnconfirmed : List Transaction

/-- External inputs of a `deleteLastBlock` run. -/
structure DeleteEnv (σ : Type) where
  ops : TrsOps σ
  deleteByIdErrors : List String
  restoreToSlot : List (String × Bool) → List (String × Bool)

/-- `deleteLastBlock`: reject at height 1 (genesis); durably delete the
block by id; restore the round to the deleted block's slot, unset its
generator's `isForged`, pop storage, and for each transaction in reverse
order run `undo` then `undoUnconfirmed`.  (The empty-storage branch is
unreachable in the source, where storage always holds at least the genesis
block.) -/
def deleteLastBlock {σ : Type} (env : DeleteEnv σ) (s : ChainState σ) :
    ResponseEntity × ChainState σ :=
  match s.blockStorage with
  | [] => ({ errors := ["No last block"] }, s)
  | lastBlock :: rest =>
    if lastBlock.height = 1 then
      ({ errors := ["Cannot delete genesis block"] }, s)
    else
      let s1 := { s with deletedIds := s.deletedIds ++ [lastBlock.id] }
      if env.deleteByIdErrors ≠ [] then
        ({ errors := env.deleteByIdErrors ++ ["deleteLastBlock"] }, s1)
      else
        let round1 := env.restoreToSlot s1.roundIsForged
        let round2 := alistSet round1 lastBlock.generatorPublicKey false
        let s2 := { s1 with roundIsForged := round2, blockStorage := rest }
        let s3 := lastBlock.transactions.reverse.foldl
          (fun st trs =>
            { st with
              accounts := env.ops.undoUnconfirmed trs (env.ops.undo trs st.accounts),
              undoneConfirmed := st.undoneConfirmed ++ [trs],
              undoneUnconfirmed := st.undoneUnconfirmed ++ [trs] })
          s2
        ({ errors := [] }, s3)

/-- C9: when the last stored block has height 1, `deleteLastBlock` fails
with `'Cannot delete genesis block'` and returns the state unchanged — in
particular the `deleteById` log, the block storage, the round `isForged`
flags, and the account state are exactly as before. -/
theorem deleteLastBlock_genesis {σ : Type} (env : DeleteEnv σ) (s : ChainState σ)
    (lastBlock : Block) (rest : List Block)
    (hstore : s.blockStorage = lastBlock :: rest)
    (hgen : lastBlock.height = 1) :
    deleteLastBlock env s = ({ errors := ["Cannot delete genesis block"] }, s) := by
  unfold deleteLastBlock
  rw [hstore]
  simp [hgen]

/-- The genesis block of the C9 witness chain. -/
def c9Genesis : Block :=
  { id := "gen", version := 1, height := 1, previousBlockId := none,
    createdAt := 0, generatorPublicKey := "g", signature := "",
    payloadHash := "", transactionCount := 0, amount := 0, fee := 0,
    transactions := [] }

/-- A chain whose only block is the genesis block, for the C9 witness. -/
def c9State : ChainState Int :=
  { blockStorage := [c9Genesis]
    roundIsForged := [("g", true)]
    accounts := 5
    deletedIds := []
    undoneConfirmed := []
    undoneUnconfirmed := [] }

/-- The delete environment of the C9 witness: the durable delete would
succeed, the round restore is the identity. -/
def c9Env : DeleteEnv Int :=
  { ops := feeOps, deleteByIdErrors := [], restoreToSlot := fun r => r }

/-- Witness for C9: deleting the last block of a genesis-only chain fails
and changes nothing. -/
theorem deleteLastBlock_genesis_witness :
    deleteLastBlock c9Env c9State =
      ({ errors := ["Cannot delete genesis block"] }, c9State) :=
  deleteLastBlock_genesis c9Env c9State c9Genesis [] (by rfl) (by rfl)

end DDK
